import Mathlib

/-!
# chinwag-go: the Go binding of the chinwag text generator

A shallow embedding of `chinwag.go`.  The Go file is a cgo binding: every
dictionary operation and the generator itself are calls into the C library
declared by `chinwag.h`, which is not among the sources at hand.  The embedding
therefore has two layers.

* `CLib` is the interface of the C library as `chinwag.go` uses it.  Every Go
  function is translated from its source and takes the library as a parameter,
  so a theorem stated for every `lib` is a fact about the Go code alone.
* `specLib` is one library, modelled from the specification; each of its
  functions says so in its doc comment.

Conventions: a Go `string` is a Lean `String`; a C string is modelled by the
text it holds, which has no NUL, and `C.GoString` of a stored word is that text.
A word handed to the binding by its caller is NUL-free text, for which
`C.CString` followed by `C.GoString` is the identity; the text `Tweak` hands to
`C.CString` is whatever its function argument returns, and what is stored of it
is `C_CString`, the text up to the first NUL.  `uint64`, `C.ulong` and the C
counters are `Nat`, no arithmetic that could overflow is performed on them; a
pointer receiver that is assigned (`*dict = ...`) is a function returning the
new dictionary; `bytes.Buffer` is the string written so far.
-/

namespace Chinwag

/-! ## Data model -/

/-- One row of the dictionary, `struct dictionary_type`: the array `words`,
whose length is the field `count`. -/
structure dictionary_type where
  /-- The word array `words` (`count` entries). -/
  words : List String
  deriving DecidableEq, Repr

/-- The field `count` of a row. -/
def dictionary_type.count (r : dictionary_type) : Nat := r.words.length

/-- The dictionary, `CWDict` (`struct dictionary_container_type`): the row array
`drows`, whose length is the field `count`, the flag `sorted` and the `name`. -/
structure CWDict where
  /-- The field `name`. -/
  name : String
  /-- The field `sorted`. -/
  sorted : Bool
  /-- The row array `drows` (`count` entries). -/
  drows : List dictionary_type
  deriving DecidableEq, Repr

/-- The field `count` of the container: the number of rows. -/
def CWDict.count (dict : CWDict) : Nat := dict.drows.length

/-- The output granularity `CWType`, a `uint8`: the four values named by the
header and every other value. -/
inductive CWType where
  | Letters
  | Words
  | Sentences
  | Paragraphs
  | other (code : Nat)
  deriving DecidableEq, Repr

/-- The fault codes `cwerror_t` of the header: the seven named codes and every
other value the C variable can hold. -/
inductive cwerror_t where
  | CWERROR_INVALID_OUTPUT_TYPE
  | CWERROR_MIN_LESS_THAN_ONE
  | CWERROR_MAX_LESS_THAN_MIN
  | CWERROR_MAX_TOO_HIGH
  | CWERROR_DICT_TOO_SMALL
  | CWERROR_DICT_UNSORTABLE
  | CWERROR_DICT_UNKNOWN
  | other (code : Nat)
  deriving DecidableEq, Repr

/-- The Go error identifier, `type ErrorType string`. -/
abbrev ErrorType := String

def InvalidOutputType : ErrorType := "CWError.InvalidOutputType"
def MinLessThanOne : ErrorType := "CWError.MinLessThanOne"
def MaxLessThanMin : ErrorType := "CWError.MaxLessThanMin"
def MaxTooHigh : ErrorType := "CWError.MaxTooHigh"
def DictTooSmall : ErrorType := "CWError.DictTooSmall"
def DictUnsortable : ErrorType := "CWError.DictUnsortable"
def DictUnknown : ErrorType := "CWError.DictUnknown"

/-- The C library as `chinwag.go` calls it.  A function that reports through an
out-parameter `cwerror_t*` returns the value left in it as a second component. -/
structure CLib where
  /-- `char* chinwag(cw_t, unsigned long, unsigned long, cwdict_t, cwerror_t*)`:
  `none` is the `NULL` result. -/
  chinwag : CWType → Nat → Nat → CWDict → Option String × cwerror_t
  /-- `cwdict_t cwdict_open()`. -/
  cwdict_open : CWDict
  /-- `cwdict_t cwdict_close(cwdict_t)`. -/
  cwdict_close : CWDict → CWDict
  /-- `cwdict_t cwdict_place_word(cwdict_t, const char*)`. -/
  cwdict_place_word : CWDict → String → CWDict
  /-- `cwdict_t cwdict_place_word_strict(cwdict_t, const char*)`. -/
  cwdict_place_word_strict : CWDict → String → CWDict
  /-- `cwdict_t cwdict_sort(cwdict_t)`. -/
  cwdict_sort : CWDict → CWDict
  /-- `bool cwdict_exclude(cwdict_t, const char*)`. -/
  cwdict_exclude : CWDict → String → Bool
  /-- `bool cwdict_include(cwdict_t, const char*)`. -/
  cwdict_include : CWDict → String → Bool
  /-- `bool cwdict_valid(cwdict_t, cwerror_t*)`. -/
  cwdict_valid : CWDict → Bool × cwerror_t
  /-- `bool cwdict_equal(cwdict_t, cwdict_t)`. -/
  cwdict_equal : CWDict → CWDict → Bool
  /-- `bool cwdict_inequal(cwdict_t, cwdict_t)`. -/
  cwdict_inequal : CWDict → CWDict → Bool
  /-- `cwdict_length(cwdict_t)`. -/
  cwdict_length : CWDict → Nat
  /-- `cwdict_size(cwdict_t)`. -/
  cwdict_size : CWDict → Nat

/-! ## The Go functions of `chinwag.go` -/

/-- `func (dict CWDict) Validate() *ErrorType`: `none` is the `nil` error. -/
def CWDict.Validate (lib : CLib) (dict : CWDict) : Option ErrorType :=
  match lib.cwdict_valid dict with
  | (false, err) =>
    let go_error : ErrorType :=
      if err = cwerror_t.CWERROR_DICT_TOO_SMALL then DictTooSmall
      else if err = cwerror_t.CWERROR_DICT_UNSORTABLE then DictUnsortable
      else DictUnknown
    some go_error
  | (true, _) => none

/-- `func Generate(dict CWDict, kind CWType, min, max uint64) (string, *ErrorType)`. -/
def Generate (lib : CLib) (dict : CWDict) (kind : CWType) (min max : Nat) :
    String × Option ErrorType :=
  match dict.Validate lib with
  | some cwerror => ("", some cwerror)
  | none =>
    match lib.chinwag kind min max dict with
    | (none, err) =>
      let go_error : ErrorType :=
        if err = cwerror_t.CWERROR_INVALID_OUTPUT_TYPE then InvalidOutputType
        else if err = cwerror_t.CWERROR_MIN_LESS_THAN_ONE then MinLessThanOne
        else if err = cwerror_t.CWERROR_MAX_LESS_THAN_MIN then MaxLessThanMin
        else if err = cwerror_t.CWERROR_MAX_TOO_HIGH then MaxTooHigh
        else DictUnknown
      ("", some go_error)
    | (some result, _) => (result, none)

/-- `func Open() CWDict`. -/
def Open (lib : CLib) : CWDict := lib.cwdict_open

/-- `func (dict *CWDict) Close() *CWDict`. -/
def CWDict.Close (lib : CLib) (dict : CWDict) : CWDict := lib.cwdict_close dict

/-- `func (dict *CWDict) AppendWord(word string) *CWDict`. -/
def CWDict.AppendWord (lib : CLib) (dict : CWDict) (word : String) : CWDict :=
  lib.cwdict_place_word dict word

/-- `func (dict *CWDict) AppendWords(words ...string) *CWDict`: the loop over
`words`, each step assigning `*dict`. -/
def CWDict.AppendWords (lib : CLib) (dict : CWDict) (words : List String) : CWDict :=
  words.foldl (fun dict word => lib.cwdict_place_word dict word) dict

/-- `func (dict *CWDict) AppendSlice(words []string) *CWDict`. -/
def CWDict.AppendSlice (lib : CLib) (dict : CWDict) (words : List String) : CWDict :=
  words.foldl (fun dict word => lib.cwdict_place_word dict word) dict

/-- `func (dict *CWDict) PlaceWord(word string) *CWDict`. -/
def CWDict.PlaceWord (lib : CLib) (dict : CWDict) (word : String) : CWDict :=
  lib.cwdict_place_word_strict dict word

/-- `func (dict *CWDict) PlaceWords(words ...string) *CWDict`. -/
def CWDict.PlaceWords (lib : CLib) (dict : CWDict) (words : List String) : CWDict :=
  words.foldl (fun dict word => lib.cwdict_place_word_strict dict word) dict

/-- `func (dict *CWDict) PlaceSlice(words []string) *CWDict`. -/
def CWDict.PlaceSlice (lib : CLib) (dict : CWDict) (words : List String) : CWDict :=
  words.foldl (fun dict word => lib.cwdict_place_word_strict dict word) dict

/-- `func (dict *CWDict) Sort()`. -/
def CWDict.Sort (lib : CLib) (dict : CWDict) : CWDict := lib.cwdict_sort dict

/-- `func (dict CWDict) IsSorted() bool`: the field `sorted`. -/
def CWDict.IsSorted (dict : CWDict) : Bool := dict.sorted

/-- The C string `C.CString(s)` as C and `C.GoString` read it: the text of `s`
up to its first NUL. -/
def C_CString (s : String) : String :=
  String.mk (s.data.takeWhile fun c => c != Char.ofNat 0)

/-- The inner loop of `Tweak`, `for j, w := range words`, from index `j` on with
`n` iterations left: `mod := C.GoString(w); mod = fn(mod)`, and `words[j]` is
overwritten in place with `C.CString(mod)`. -/
def tweakWords (fn : String → String) : Nat → Nat → List String → List String
  | 0, _, words => words
  | n + 1, j, words =>
    match words[j]? with
    | some w => tweakWords fn n (j + 1) (words.set j (C_CString (fn w)))
    | none => words

/-- The outer loop of `Tweak`, `for _, r := range rows`, from index `i` on with
`n` iterations left: `r` is a copy of the row, its `words` points at the row's
own array, so the inner loop rewrites the words of row `i` in place. -/
def tweakRows (fn : String → String) :
    Nat → Nat → List dictionary_type → List dictionary_type
  | 0, _, rows => rows
  | n + 1, i, rows =>
    match rows[i]? with
    | some r =>
      tweakRows fn n (i + 1) (rows.set i { r with words := tweakWords fn r.count 0 r.words })
    | none => rows

/-- `func (dict *CWDict) Tweak(fn func(string)string) *CWDict`: the two nested
loops run over `container.count` rows and `r.count` words; the counts, the flag
and the name are not written. -/
def CWDict.Tweak (dict : CWDict) (fn : String → String) : CWDict :=
  { dict with drows := tweakRows fn dict.count 0 dict.drows }

/-- `func (dict CWDict) Exclude(word string) bool`. -/
def CWDict.Exclude (lib : CLib) (dict : CWDict) (word : String) : Bool :=
  lib.cwdict_exclude dict word

/-- `func (dict CWDict) Include(word string) bool`. -/
def CWDict.Include (lib : CLib) (dict : CWDict) (word : String) : Bool :=
  lib.cwdict_include dict word

/-- `func (dict CWDict) Equal(against CWDict) bool`: both arguments of the
library call are `dict`. -/
def CWDict.Equal (lib : CLib) (dict _against : CWDict) : Bool :=
  lib.cwdict_equal dict dict

/-- `func (dict CWDict) Inequal(against CWDict) bool`: both arguments of the
library call are `dict`. -/
def CWDict.Inequal (lib : CLib) (dict _against : CWDict) : Bool :=
  lib.cwdict_inequal dict dict

/-- `func (dict CWDict) Length() uint64`. -/
def CWDict.Length (lib : CLib) (dict : CWDict) : Nat := lib.cwdict_length dict

/-- `func (dict CWDict) Size() uint64`. -/
def CWDict.Size (lib : CLib) (dict : CWDict) : Nat := lib.cwdict_size dict

/-- `func (dict CWDict) Count() uint64`: it calls `cwdict_size`. -/
def CWDict.Count (lib : CLib) (dict : CWDict) : Nat := lib.cwdict_size dict

/-- The inner loop of `Join`, `for j, w := range words`: write the word, then
the joiner when `j < word_count - 1`. -/
def joinWords (joiner : String) (word_count : Int) : Nat → List String → String → String
  | _, [], result => result
  | j, w :: words, result =>
    let result := result ++ w
    let result := if (j : Int) < word_count - 1 then result ++ joiner else result
    joinWords joiner word_count (j + 1) words result

/-- The outer loop of `Join`, `for i, r := range rows`: write the row's words,
then the joiner when `i < row_count - 1`. -/
def joinRows (joiner : String) (row_count : Int) : Nat → List dictionary_type → String → String
  | _, [], result => result
  | i, r :: rows, result =>
    let word_count : Int := r.count
    let result := joinWords joiner word_count 0 r.words result
    let result := if (i : Int) < row_count - 1 then result ++ joiner else result
    joinRows joiner row_count (i + 1) rows result

/-- `func (dict CWDict) Join(joiner string) string`. -/
def CWDict.Join (dict : CWDict) (joiner : String) : String :=
  let row_count : Int := dict.count
  joinRows joiner row_count 0 dict.drows ""

/-- The outer loop of `String`: each row is written as `[`, its words separated
by `", "`, and `]`; `", "` follows when `i < row_count - 1`. -/
def stringRows (row_count : Int) : Nat → List dictionary_type → String → String
  | _, [], result => result
  | i, r :: rows, result =>
    let result := result ++ "["
    let word_count : Int := r.count
    let result := joinWords ", " word_count 0 r.words result
    let result := result ++ "]"
    let result := if (i : Int) < row_count - 1 then result ++ ", " else result
    stringRows row_count (i + 1) rows result

/-- `func (dict CWDict) String() string` (the name `String` is the type's). -/
def CWDict.String_ (dict : CWDict) : String :=
  let row_count : Int := dict.count
  let result := "" ++ "["
  let result := stringRows row_count 0 dict.drows result
  result ++ "]"

/-! ## The library, modelled from the specification -/

/-- The constants of the header that the library's behaviour depends on, and the
text production of the generator, which draws on the library's random state. -/
structure LibConfig where
  /-- The delimiter set `CW_DELIMITERS`. -/
  CW_DELIMITERS : String
  /-- The minimum viable number of words of a dictionary. -/
  CW_MIN_DICT_SIZE : Nat
  /-- The ceiling on `max`. -/
  CW_MAX_OUTPUT : Nat
  /-- The text produced for a granularity, a range `[min, max]` and a dictionary
  once every precondition holds. -/
  produce : CWType → Nat → Nat → CWDict → String

/-- Every word of the dictionary, row by row and word by word in storage order. -/
def allWords (dict : CWDict) : List String :=
  dict.drows.flatMap fun r => r.words

/-- Modelled from the spec: `cwdict_open`, missing from the sources; "a
Dictionary is created empty".  The flag starts cleared: it is set by `sort()`
alone. -/
def cwdict_open : CWDict := { name := "", sorted := false, drows := [] }

/-- Modelled from the spec: `cwdict_close`, missing from the sources; "closing
discards all Rows and resets to the empty state". -/
def cwdict_close (_dict : CWDict) : CWDict := cwdict_open

/-- The length a row is keyed by, the length of its words; a row without words
has none. -/
def rowLength (r : dictionary_type) : Option Nat :=
  r.words.head?.map String.length

/-- Modelled from the spec: the placement of the loose insert, missing from the
sources; it "appends the Word to its length's Row (creating the Row if
absent)", a dictionary holding "at most one Row per length value".  A row that
is created is stored behind the rows already there. -/
def placeInRow (word : String) : List dictionary_type → List dictionary_type
  | [] => [{ words := [word] }]
  | r :: rows =>
    if rowLength r = some word.length then { words := r.words ++ [word] } :: rows
    else r :: placeInRow word rows

/-- Modelled from the spec: `cwdict_place_word`, missing from the sources; the
loose insert of section 4.1.  The word is stored whatever it is, duplicates
allowed, in the row of its length, and the flag is reset ("any mutation that
inserts a Word must reset sorted=false").  The round trip of section 8 and
`TestChinwagSort`, which have `join` return loosely inserted words in insertion
order, do not agree with a row for each length; nothing proved here rests on the
order in which loosely inserted words are stored. -/
def cwdict_place_word (dict : CWDict) (word : String) : CWDict :=
  { dict with sorted := false, drows := placeInRow word dict.drows }

/-- Modelled from the spec: the Normalizer of section 4.2, missing from the
sources; it "strips characters outside the configured delimiter/allowed-character
policy": the delimiter characters are removed from the token. -/
def normalize (delimiters : String) (token : String) : String :=
  String.mk (token.data.filter fun c => !delimiters.data.contains c)

/-- Modelled from the spec: `cwdict_place_word_strict`, missing from the
sources; the strict insert "rejects/normalizes invalid tokens before appending",
a token that normalizes to the empty string "is silently dropped", and nothing
is deduplicated. -/
def cwdict_place_word_strict (delimiters : String) (dict : CWDict) (word : String) : CWDict :=
  let token := normalize delimiters word
  if token = "" then dict else cwdict_place_word dict token

/-- The lexicographic order on texts, by code point. -/
def lexLE : List Char → List Char → Bool
  | [], _ => true
  | _ :: _, [] => false
  | a :: as, b :: bs =>
    if a.toNat < b.toNat then true
    else if b.toNat < a.toNat then false
    else lexLE as bs

/-- The order `sort()` puts the words in: by ascending length, words of one
length in lexicographic order. -/
def wordLE (a b : String) : Bool :=
  decide (a.length < b.length) || (a.length == b.length && lexLE a.data b.data)

/-- Modelled from the spec: `cwdict_sort`, missing from the sources; it "orders
Rows ascending by length, Words within a Row in total order", the lexicographic
one the spec names, with one row for each length, and "sets sorted=true". -/
def cwdict_sort (dict : CWDict) : CWDict :=
  let ordered := (allWords dict).insertionSort fun a b => wordLE a b = true
  { dict with
    sorted := true,
    drows := (ordered.splitBy fun a b => a.length == b.length).map fun ws => { words := ws } }

/-- Modelled from the spec: `cwdict_include`, missing from the sources; an
"exact-match membership test across all Rows". -/
def cwdict_include (dict : CWDict) (word : String) : Bool :=
  dict.drows.any fun r => r.words.any fun w => w == word

/-- Modelled from the spec: `cwdict_exclude`, missing from the sources; "true iff
absent": no word of any row matches. -/
def cwdict_exclude (dict : CWDict) (word : String) : Bool :=
  dict.drows.all fun r => r.words.all fun w => w != word

/-- Modelled from the spec: `cwdict_length`, missing from the sources; the "total
distinct-or-not Word count across all Rows", the sum of the rows' counts. -/
def cwdict_length (dict : CWDict) : Nat :=
  (dict.drows.map fun r => r.count).sum

/-- Modelled from the spec: `cwdict_size`, missing from the sources; the "total
distinct-or-not Word count across all Rows", the number of word entries met
walking the rows. -/
def cwdict_size (dict : CWDict) : Nat := (allWords dict).length

/-- Modelled from the spec: `cwdict_valid`, missing from the sources.  It fails
with `DictTooSmall` below the minimum viable word count, counting distinct words
(the reference scenario with hundreds of copies of a few words is invalid), and
with `DictUnsortable` for a dictionary without words, which "cannot be brought
into a total order".  The second component is the code left in the
out-parameter. -/
def cwdict_valid (minSize : Nat) (dict : CWDict) : Bool × cwerror_t :=
  if (allWords dict).eraseDups.length < minSize then
    (false, cwerror_t.CWERROR_DICT_TOO_SMALL)
  else if allWords dict = [] then
    (false, cwerror_t.CWERROR_DICT_UNSORTABLE)
  else
    (true, cwerror_t.other 0)

/-- Modelled from the spec: `cwdict_equal`, missing from the sources; the
comparison of two dictionaries. -/
def cwdict_equal (dict against : CWDict) : Bool := decide (dict = against)

/-- Modelled from the spec: `cwdict_inequal`, missing from the sources. -/
def cwdict_inequal (dict against : CWDict) : Bool := !cwdict_equal dict against

/-- Modelled from the spec: `chinwag`, missing from the sources; the
precondition checks of section 4.4 "evaluated in this order, each returning a
distinct error and aborting generation", then the text. -/
def chinwag (cfg : LibConfig) (kind : CWType) (min max : Nat) (dict : CWDict) :
    Option String × cwerror_t :=
  match kind with
  | CWType.other _ => (none, cwerror_t.CWERROR_INVALID_OUTPUT_TYPE)
  | _ =>
    if min < 1 then (none, cwerror_t.CWERROR_MIN_LESS_THAN_ONE)
    else if max < min then (none, cwerror_t.CWERROR_MAX_LESS_THAN_MIN)
    else if cfg.CW_MAX_OUTPUT < max then (none, cwerror_t.CWERROR_MAX_TOO_HIGH)
    else
      match cwdict_valid cfg.CW_MIN_DICT_SIZE dict with
      | (false, err) => (none, err)
      | (true, err) => (some (cfg.produce kind min max dict), err)

/-- The library modelled from the specification. -/
def specLib (cfg : LibConfig) : CLib where
  chinwag := chinwag cfg
  cwdict_open := cwdict_open
  cwdict_close := cwdict_close
  cwdict_place_word := cwdict_place_word
  cwdict_place_word_strict := cwdict_place_word_strict cfg.CW_DELIMITERS
  cwdict_sort := cwdict_sort
  cwdict_exclude := cwdict_exclude
  cwdict_include := cwdict_include
  cwdict_valid := cwdict_valid cfg.CW_MIN_DICT_SIZE
  cwdict_equal := cwdict_equal
  cwdict_inequal := cwdict_inequal
  cwdict_length := cwdict_length
  cwdict_size := cwdict_size

/-! ## The specification's wording of the renderings -/

/-- The words of a list with exactly one copy of the separator between each pair
of consecutive words, and none before the first or behind the last. -/
def separatedBy (separator : String) : List String → String
  | [] => ""
  | [w] => w
  | w :: v :: words => w ++ separator ++ separatedBy separator (v :: words)

/-- The bracketed group of a row: `[`, its words separated by `", "`, `]`. -/
def rowGroup (r : dictionary_type) : String :=
  "[" ++ separatedBy ", " r.words ++ "]"

/-- A Word of the data model: a non-empty sequence of non-delimiter characters. -/
def IsWord (delimiters : String) (w : String) : Prop :=
  w ≠ "" ∧ ∀ c ∈ w.data, c ∉ delimiters.data

instance (delimiters w : String) : Decidable (IsWord delimiters w) := by
  unfold IsWord
  infer_instance

/-! ## Witness inputs -/

/-- The function `strings.ToUpper` of the Go library, on ASCII text: the argument
of `Tweak` in `TestChinwagTweak`. -/
def strings_ToUpper (s : String) : String :=
  String.mk (s.data.map Char.toUpper)

/-- A configuration of the library with a small viability threshold; the text
it produces is a stand-in, the words of the dictionary separated by spaces. -/
def smallConfig : LibConfig where
  CW_DELIMITERS := " ,;:"
  CW_MIN_DICT_SIZE := 3
  CW_MAX_OUTPUT := 10000
  produce := fun _ _ _ dict => separatedBy " " (allWords dict)

/-- A configuration of the library with a threshold in the low hundreds, the
order of magnitude the specification gives; the text it produces is a stand-in. -/
def referenceConfig : LibConfig where
  CW_DELIMITERS := " ,;:"
  CW_MIN_DICT_SIZE := 300
  CW_MAX_OUTPUT := 10000
  produce := fun _ _ _ dict => separatedBy " " (allWords dict)

/-- The dictionary `small_mess` of `TestChinwagValidate`, seven words strictly
placed in an empty dictionary, which the test expects to fail `Validate`. -/
def small_mess : CWDict :=
  (Open (specLib referenceConfig)).PlaceSlice (specLib referenceConfig)
    ["this", "is", "a", "quick", "test", "of", "validity"]

/-- A dictionary of four distinct words, loosely appended. -/
def fourWords : CWDict :=
  (Open (specLib smallConfig)).AppendWords (specLib smallConfig) ["this", "is", "a", "test"]

/-! ## The error mapping of `Generate` and `Validate` -/

/-- The identifier `Validate` gives a fault code of `cwdict_valid`. -/
def validateError (err : cwerror_t) : ErrorType :=
  if err = cwerror_t.CWERROR_DICT_TOO_SMALL then DictTooSmall
  else if err = cwerror_t.CWERROR_DICT_UNSORTABLE then DictUnsortable
  else DictUnknown

/-- The identifier `Generate` gives a fault code of `chinwag`. -/
def generateError (err : cwerror_t) : ErrorType :=
  if err = cwerror_t.CWERROR_INVALID_OUTPUT_TYPE then InvalidOutputType
  else if err = cwerror_t.CWERROR_MIN_LESS_THAN_ONE then MinLessThanOne
  else if err = cwerror_t.CWERROR_MAX_LESS_THAN_MIN then MaxLessThanMin
  else if err = cwerror_t.CWERROR_MAX_TOO_HIGH then MaxTooHigh
  else DictUnknown

/-- What `Generate` makes of the generator's result. -/
def generatorResult (r : Option String × cwerror_t) : String × Option ErrorType :=
  match r with
  | (none, err) => ("", some (generateError err))
  | (some result, _) => (result, none)

/-! ## The sorted-flag invariant and repeated insertion, in the specification's words -/

/-- Rows are in ascending length order: every word of an earlier row is shorter
than every word of a later row. -/
def RowsAscending (dict : CWDict) : Prop :=
  dict.drows.Pairwise fun r s => ∀ a ∈ r.words, ∀ b ∈ s.words, a.length < b.length

/-- Every row's words are in order, for the order `le` on words. -/
def WordsInOrder (le : String → String → Prop) (dict : CWDict) : Prop :=
  ∀ r ∈ dict.drows, r.words.Pairwise le

/-- The flag is set exactly when the dictionary is in order: `IsSorted()` is true
iff every row's words are in order and the rows are in ascending length order. -/
def SortedExactly (le : String → String → Prop) (dict : CWDict) : Prop :=
  dict.IsSorted = true ↔ WordsInOrder le dict ∧ RowsAscending dict

/-- The flag is set only when the dictionary is in order: `IsSorted()` is true
only if every row's words are in order and the rows are in ascending length
order. -/
def SortedOnlyIf (le : String → String → Prop) (dict : CWDict) : Prop :=
  dict.IsSorted = true → WordsInOrder le dict ∧ RowsAscending dict

/-- Repeated single insertion: `insert` is called for each word of the list in
order, each call on the dictionary the previous one left. -/
def insertEach (insert : CWDict → String → CWDict) : CWDict → List String → CWDict
  | dict, [] => dict
  | dict, w :: words => insertEach insert (insert dict w) words

/-- The words `is`, `a` loosely appended to an empty dictionary and sorted: the
rows `[a]`, `[is]` with the flag set. -/
def sortedPair : CWDict :=
  ((Open (specLib smallConfig)).AppendWords (specLib smallConfig) ["is", "a"]).Sort
    (specLib smallConfig)

/-- A dictionary of three words in two rows, `[a]` and `[is, of]`, with the
flag set. -/
def rowsOfThree : CWDict := { name := "", sorted := true, drows := [⟨["a"]⟩, ⟨["is", "of"]⟩] }

/-- A function on words whose image holds a NUL: the constant `A`, NUL, `B`. -/
def nulImage (_w : String) : String := "A\x00B"

/-- A function on words that lengthens the word `a` and keeps every other word. -/
def lengthen (w : String) : String := if w = "a" then "aaa" else w

/-! ## Theorems -/

theorem validate_of_invalid (lib : CLib) (dict : CWDict) (err : cwerror_t)
    (h : lib.cwdict_valid dict = (false, err)) :
    dict.Validate lib = some (validateError err) := by
  simp [CWDict.Validate, h, validateError]

theorem validate_of_valid (lib : CLib) (dict : CWDict) (err : cwerror_t)
    (h : lib.cwdict_valid dict = (true, err)) : dict.Validate lib = none := by
  simp [CWDict.Validate, h]

theorem validateError_mem (err : cwerror_t) :
    validateError err ∈ [DictTooSmall, DictUnsortable, DictUnknown] := by
  unfold validateError
  split_ifs <;> simp

theorem generateError_mem (err : cwerror_t) :
    generateError err ∈ [InvalidOutputType, MinLessThanOne, MaxLessThanMin, MaxTooHigh,
      DictUnknown] := by
  unfold generateError
  split_ifs <;> simp

theorem validate_mem (lib : CLib) (dict : CWDict) (e : ErrorType)
    (h : dict.Validate lib = some e) : e ∈ [DictTooSmall, DictUnsortable, DictUnknown] := by
  rcases hv : lib.cwdict_valid dict with ⟨ok, err⟩
  cases ok
  · rw [validate_of_invalid lib dict err hv] at h
    cases h
    exact validateError_mem err
  · rw [validate_of_valid lib dict err hv] at h
    cases h

theorem generate_of_invalid (lib : CLib) (dict : CWDict) (kind : CWType) (min max : Nat)
    (e : ErrorType) (h : dict.Validate lib = some e) :
    Generate lib dict kind min max = ("", some e) := by
  simp [Generate, h]

theorem generate_of_valid (lib : CLib) (dict : CWDict) (kind : CWType) (min max : Nat)
    (h : dict.Validate lib = none) :
    Generate lib dict kind min max = generatorResult (lib.chinwag kind min max dict) := by
  rcases hc : lib.chinwag kind min max dict with ⟨r, err⟩
  cases r <;> simp [Generate, h, hc, generatorResult, generateError]

/-- C3: when `Validate` reports an error, `Generate` returns the empty text with
exactly that error, whatever the generator is (it is not consulted); when
`Validate` reports none, the result of `Generate` is what the generator's result
alone determines. -/
theorem generate_validation_gate (lib : CLib) (dict : CWDict) (kind : CWType) (min max : Nat) :
    (∀ e, dict.Validate lib = some e →
      Generate lib dict kind min max = ("", some e) ∧
      ∀ generator : CWType → Nat → Nat → CWDict → Option String × cwerror_t,
        Generate { lib with chinwag := generator } dict kind min max = ("", some e)) ∧
    (dict.Validate lib = none →
      Generate lib dict kind min max = generatorResult (lib.chinwag kind min max dict)) := by
  refine ⟨fun e he => ⟨generate_of_invalid lib dict kind min max e he, fun generator => ?_⟩,
    generate_of_valid lib dict kind min max⟩
  exact generate_of_invalid _ dict kind min max e he

/-- C3 at concrete inputs: the empty dictionary is refused with the error of
`Validate`, a valid dictionary gets the generator's text. -/
theorem generate_validation_gate_witness :
    Generate (specLib smallConfig) (Open (specLib smallConfig)) CWType.Words 1 5
        = ("", some DictTooSmall) ∧
      Generate (specLib smallConfig) fourWords CWType.Words 1 5 = ("this test is a", none) :=
  ⟨((generate_validation_gate (specLib smallConfig) (Open (specLib smallConfig))
      CWType.Words 1 5).1 DictTooSmall (by decide)).1,
    ((generate_validation_gate (specLib smallConfig) fourWords CWType.Words 1 5).2
      (by decide)).trans (by decide)⟩

/-- C4: the error surface is closed.  An error of `Generate` is one of the seven
identifiers and comes with the empty text; an error of `Validate` is one of the
three dictionary identifiers; each fault code that `Validate` or `Generate`
tests for maps to the identifier of the same name, and every other fault code
maps to `DictUnknown`. -/
theorem error_surface_closed (lib : CLib) (dict : CWDict) (kind : CWType) (min max : Nat) :
    (∀ e, (Generate lib dict kind min max).2 = some e →
      e ∈ [InvalidOutputType, MinLessThanOne, MaxLessThanMin, MaxTooHigh, DictTooSmall,
        DictUnsortable, DictUnknown] ∧ (Generate lib dict kind min max).1 = "") ∧
    (∀ e, dict.Validate lib = some e → e ∈ [DictTooSmall, DictUnsortable, DictUnknown]) ∧
    (∀ err, lib.cwdict_valid dict = (false, err) →
      dict.Validate lib = some
        (match err with
          | cwerror_t.CWERROR_DICT_TOO_SMALL => DictTooSmall
          | cwerror_t.CWERROR_DICT_UNSORTABLE => DictUnsortable
          | _ => DictUnknown)) ∧
    (∀ err, dict.Validate lib = none → lib.chinwag kind min max dict = (none, err) →
      (Generate lib dict kind min max).2 = some
        (match err with
          | cwerror_t.CWERROR_INVALID_OUTPUT_TYPE => InvalidOutputType
          | cwerror_t.CWERROR_MIN_LESS_THAN_ONE => MinLessThanOne
          | cwerror_t.CWERROR_MAX_LESS_THAN_MIN => MaxLessThanMin
          | cwerror_t.CWERROR_MAX_TOO_HIGH => MaxTooHigh
          | _ => DictUnknown)) := by
  refine ⟨?_, validate_mem lib dict, ?_, ?_⟩
  · intro e he
    rcases hv : dict.Validate lib with _ | e'
    · rw [generate_of_valid lib dict kind min max hv] at he ⊢
      rcases hc : lib.chinwag kind min max dict with ⟨r, err⟩
      cases r with
      | none =>
        rw [hc] at he
        simp only [generatorResult, Option.some.injEq] at he ⊢
        subst he
        have := generateError_mem err
        simp only [List.mem_cons, List.mem_singleton, List.not_mem_nil, or_false] at this ⊢
        tauto
      | some text =>
        rw [hc] at he
        simp [generatorResult] at he
    · rw [generate_of_invalid lib dict kind min max e' hv] at he ⊢
      simp only [Option.some.injEq] at he
      subst he
      have := validate_mem lib dict e' hv
      simp only [List.mem_cons, List.mem_singleton, List.not_mem_nil, or_false] at this ⊢
      tauto
  · intro err h
    rw [validate_of_invalid lib dict err h]
    cases err <;> simp [validateError]
  · intro err hv hc
    rw [generate_of_valid lib dict kind min max hv, hc]
    cases err <;> simp [generatorResult, generateError]

/-- C4 at concrete inputs: a refused dictionary and a refused range. -/
theorem error_surface_closed_witness :
    Generate (specLib smallConfig) (Open (specLib smallConfig)) CWType.Letters 1 5
        = ("", some DictTooSmall) ∧
      Generate (specLib smallConfig) fourWords CWType.Letters 1 20000 = ("", some MaxTooHigh) ∧
      DictTooSmall ∈ [InvalidOutputType, MinLessThanOne, MaxLessThanMin, MaxTooHigh,
        DictTooSmall, DictUnsortable, DictUnknown] :=
  ⟨by decide, by decide,
    ((error_surface_closed (specLib smallConfig) (Open (specLib smallConfig))
      CWType.Letters 1 5).1 DictTooSmall (by decide)).1⟩

/-- C2, refuted as stated: with the seven-word dictionary of
`TestChinwagValidate`, which fails `Validate`, `Generate` with `min = 0` reports
the error of `Validate`, not `MinLessThanOne`, and with `min = 5`, `max = 2` it
reports the error of `Validate`, not `MaxLessThanMin`. -/
theorem bound_error_masked_by_validation :
    small_mess.Validate (specLib referenceConfig) = some DictTooSmall ∧
      Generate (specLib referenceConfig) small_mess CWType.Letters 0 5
        = ("", some DictTooSmall) ∧
      (Generate (specLib referenceConfig) small_mess CWType.Letters 0 5).2
        ≠ some MinLessThanOne ∧
      Generate (specLib referenceConfig) small_mess CWType.Letters 5 2
        = ("", some DictTooSmall) ∧
      (Generate (specLib referenceConfig) small_mess CWType.Letters 5 2).2
        ≠ some MaxLessThanMin := by
  decide

/-- C2, amended: `Generate` validates the dictionary first.  For whatever
library, a dictionary that fails `Validate` gets the error of `Validate`, which
is neither bound error, whatever `min` and `max` are; with a dictionary that
passes `Validate` and a valid granularity, `min < 1` fails with `MinLessThanOne`
and `min >= 1` with `max < min` fails with `MaxLessThanMin`. -/
theorem generate_bound_errors (cfg : LibConfig) (dict : CWDict) (kind : CWType) (min max : Nat)
    (hkind : kind ∈ [CWType.Letters, CWType.Words, CWType.Sentences, CWType.Paragraphs]) :
    (∀ (lib : CLib) (e : ErrorType), dict.Validate lib = some e →
      Generate lib dict kind min max = ("", some e) ∧ e ≠ MinLessThanOne ∧ e ≠ MaxLessThanMin) ∧
    (dict.Validate (specLib cfg) = none →
      (min < 1 → Generate (specLib cfg) dict kind min max = ("", some MinLessThanOne)) ∧
      (1 ≤ min → max < min →
        Generate (specLib cfg) dict kind min max = ("", some MaxLessThanMin))) := by
  constructor
  · intro lib e he
    refine ⟨generate_of_invalid lib dict kind min max e he, ?_⟩
    have := validate_mem lib dict e he
    simp only [List.mem_cons, List.mem_singleton, List.not_mem_nil, or_false] at this
    rcases this with h | h | h <;> subst h <;> decide
  · intro hv
    rw [generate_of_valid (specLib cfg) dict kind min max hv]
    have hk : ∀ code, kind ≠ CWType.other code := by
      intro code hc
      subst hc
      simp at hkind
    constructor
    · intro hmin
      cases kind <;> first
        | exact absurd rfl (hk _)
        | simp [specLib, chinwag, hmin, generatorResult, generateError]
    · intro h1 hmax
      have h1' : ¬ min < 1 := by omega
      cases kind <;> first
        | exact absurd rfl (hk _)
        | simp [specLib, chinwag, h1', hmax, generatorResult, generateError]

/-- C2 amended, at concrete inputs: a valid dictionary, `min = 0`. -/
theorem generate_bound_errors_witness :
    fourWords.Validate (specLib smallConfig) = none ∧
      Generate (specLib smallConfig) fourWords CWType.Letters 0 5 = ("", some MinLessThanOne) :=
  ⟨by decide,
    ((generate_bound_errors smallConfig fourWords CWType.Letters 0 5 (by decide)).2
      (by decide)).1 (by decide)⟩

/-! ### The loops of `Join` and `String` -/

theorem separatedBy_cons_cons (s w v : String) (ws : List String) :
    separatedBy s (w :: v :: ws) = w ++ s ++ separatedBy s (v :: ws) := rfl

theorem separatedBy_append (s : String) (xs ys : List String) (hx : xs ≠ []) (hy : ys ≠ []) :
    separatedBy s (xs ++ ys) = separatedBy s xs ++ s ++ separatedBy s ys := by
  induction xs with
  | nil => exact absurd rfl hx
  | cons x xs ih =>
    cases xs with
    | nil =>
      cases ys with
      | nil => exact absurd rfl hy
      | cons y ys => rfl
    | cons x' xs =>
      have := ih (by simp)
      simp only [List.cons_append] at this ⊢
      rw [separatedBy_cons_cons, this, separatedBy_cons_cons]
      simp only [String.append_assoc]

theorem joinWords_eq (joiner : String) (words : List String) :
    ∀ (j : Nat) (result : String),
      joinWords joiner ((j + words.length : Nat) : Int) j words result
        = result ++ separatedBy joiner words := by
  induction words with
  | nil => intro j result; simp [joinWords, separatedBy]
  | cons w ws ih =>
    intro j result
    cases ws with
    | nil =>
      simp [joinWords, separatedBy]
    | cons v ws =>
      have h := ih (j + 1) (result ++ w ++ joiner)
      have e : j + 1 + (v :: ws).length = j + (w :: v :: ws).length := by
        simp only [List.length_cons]; omega
      rw [e] at h
      have c : (j : Int) < ((j + (w :: v :: ws).length : Nat) : Int) - 1 := by
        simp only [List.length_cons]; push_cast; omega
      rw [joinWords]
      simp only [c, if_true]
      rw [h, separatedBy_cons_cons]
      simp only [String.append_assoc]

theorem joinWords_row (joiner : String) (r : dictionary_type) (result : String) :
    joinWords joiner (r.count : Int) 0 r.words result = result ++ separatedBy joiner r.words := by
  have := joinWords_eq joiner r.words 0 result
  simpa [dictionary_type.count] using this

theorem joinRows_eq (joiner : String) (rows : List dictionary_type)
    (hne : ∀ r ∈ rows, r.words ≠ []) :
    ∀ (i : Nat) (result : String),
      joinRows joiner ((i + rows.length : Nat) : Int) i rows result
        = result ++ separatedBy joiner (rows.flatMap fun r => r.words) := by
  induction rows with
  | nil => intro i result; simp [joinRows, separatedBy]
  | cons r rows ih =>
    intro i result
    have hr : r.words ≠ [] := hne r (List.mem_cons_self _ _)
    have hrest : ∀ r ∈ rows, r.words ≠ [] := fun r' h' => hne r' (List.mem_cons_of_mem _ h')
    cases rows with
    | nil =>
      simp [joinRows, joinWords_row]
    | cons r' rows =>
      have h := ih hrest (i + 1) (result ++ separatedBy joiner r.words ++ joiner)
      have e : i + 1 + (r' :: rows).length = i + (r :: r' :: rows).length := by
        simp only [List.length_cons]; omega
      rw [e] at h
      have c : (i : Int) < ((i + (r :: r' :: rows).length : Nat) : Int) - 1 := by
        simp only [List.length_cons]; push_cast; omega
      rw [joinRows]
      simp only [c, if_true, joinWords_row]
      rw [h]
      have hne' : ((r' :: rows).flatMap fun r => r.words) ≠ [] := by
        have := hrest r' (List.mem_cons_self _ _)
        simp only [List.flatMap_cons]
        intro hnil
        exact this (List.append_eq_nil.mp hnil).1
      rw [List.flatMap_cons r (r' :: rows), separatedBy_append joiner _ _ hr hne']
      simp only [String.append_assoc]

theorem stringRows_eq (rows : List dictionary_type) :
    ∀ (i : Nat) (result : String),
      stringRows ((i + rows.length : Nat) : Int) i rows result
        = result ++ separatedBy ", " (rows.map rowGroup) := by
  induction rows with
  | nil => intro i result; simp [stringRows, separatedBy]
  | cons r rows ih =>
    intro i result
    cases rows with
    | nil =>
      simp [stringRows, joinWords_row, separatedBy, rowGroup, String.append_assoc]
    | cons r' rows =>
      have h := ih (i + 1) (result ++ rowGroup r ++ ", ")
      have e : i + 1 + (r' :: rows).length = i + (r :: r' :: rows).length := by
        simp only [List.length_cons]; omega
      rw [e] at h
      have c : (i : Int) < ((i + (r :: r' :: rows).length : Nat) : Int) - 1 := by
        simp only [List.length_cons]; push_cast; omega
      rw [stringRows]
      simp only [c, if_true, joinWords_row]
      have g : result ++ "[" ++ separatedBy ", " r.words ++ "]" ++ ", "
          = result ++ rowGroup r ++ ", " := by
        simp only [rowGroup, String.append_assoc]
      rw [g, h]
      simp only [List.map_cons, separatedBy_cons_cons, String.append_assoc]

theorem join_eq_separatedBy (dict : CWDict) (joiner : String)
    (hne : ∀ r ∈ dict.drows, r.words ≠ []) :
    dict.Join joiner = separatedBy joiner (allWords dict) := by
  have h := joinRows_eq joiner dict.drows hne 0 ""
  simp only [Nat.zero_add, String.empty_append] at h
  simpa [CWDict.Join, CWDict.count, allWords] using h

/-- C5: for a dictionary whose rows are all non-empty, `Join(s)` is the words of
all rows in storage order with exactly one copy of `s` between consecutive words
and none at either end; two such dictionaries with the same words in the same
order join to the same text, however the words are split into rows; a
dictionary without rows joins to the empty string. -/
theorem join_separates_all_words (dict : CWDict) (joiner : String)
    (hne : ∀ r ∈ dict.drows, r.words ≠ []) :
    dict.Join joiner = separatedBy joiner (allWords dict) ∧
      (∀ other : CWDict, (∀ r ∈ other.drows, r.words ≠ []) → allWords other = allWords dict →
        other.Join joiner = dict.Join joiner) ∧
      (dict.drows = [] → dict.Join joiner = "") := by
  refine ⟨join_eq_separatedBy dict joiner hne, fun other ho hw => ?_, fun h => ?_⟩
  · rw [join_eq_separatedBy other joiner ho, join_eq_separatedBy dict joiner hne, hw]
  · rw [join_eq_separatedBy dict joiner hne]
    simp [allWords, h, separatedBy]

/-- C5 at a concrete dictionary of two rows. -/
theorem join_separates_all_words_witness :
    (CWDict.mk "" false [⟨["a"]⟩, ⟨["is", "of"]⟩]).Join " -- " = "a -- is -- of" :=
  (join_separates_all_words (CWDict.mk "" false [⟨["a"]⟩, ⟨["is", "of"]⟩]) " -- "
    (by decide)).1.trans (by decide)

/-- C6: `String()` is `[`, one group for each row in storage order, the groups
separated by `", "`, and `]`, where the group of a row is `[`, its words
separated by `", "`, and `]`; a dictionary without rows, such as a freshly
opened or a closed one, renders as `[]`. -/
theorem string_renders_rows (dict : CWDict) :
    dict.String_ = "[" ++ separatedBy ", " (dict.drows.map rowGroup) ++ "]" ∧
      (dict.drows = [] → dict.String_ = "[]") ∧
      (∀ cfg : LibConfig, (Open (specLib cfg)).String_ = "[]" ∧
        (dict.Close (specLib cfg)).String_ = "[]") := by
  have h := stringRows_eq dict.drows 0 ("" ++ "[")
  simp only [Nat.zero_add] at h
  have main : dict.String_ = "[" ++ separatedBy ", " (dict.drows.map rowGroup) ++ "]" := by
    simp only [CWDict.String_, CWDict.count, h]
    simp
  refine ⟨main, fun hd => ?_, fun cfg => ⟨by rfl, by rfl⟩⟩
  rw [main, hd]
  decide

/-! ### `Tweak` -/

theorem tweakWords_get (fn : String → String) (n : Nat) :
    ∀ (j : Nat) (words : List String), j + n = words.length → ∀ k : Nat,
      (tweakWords fn n j words)[k]?
        = if j ≤ k then (words[k]?).map (fun w => C_CString (fn w)) else words[k]? := by
  induction n with
  | zero =>
    intro j words h k
    have hj : j = words.length := by omega
    by_cases hk : j ≤ k
    · have : words[k]? = none := List.getElem?_eq_none (by omega)
      simp [tweakWords, hk, this]
    · simp [tweakWords, hk]
  | succ n ih =>
    intro j words h k
    have hj : j < words.length := by omega
    rw [tweakWords, List.getElem?_eq_getElem hj]
    simp only
    rw [ih (j + 1) (words.set j (C_CString (fn words[j]))) (by simp; omega) k,
      List.getElem?_set]
    by_cases hk : j = k
    · subst hk
      simp [hj]
    · by_cases hk' : j + 1 ≤ k
      · have : j ≤ k := by omega
        simp [hk, hk', this]
      · have : ¬ j ≤ k := by omega
        simp [hk, hk', this]

theorem tweakWords_eq_map (fn : String → String) (words : List String) :
    tweakWords fn words.length 0 words = words.map (fun w => C_CString (fn w)) := by
  apply List.ext_getElem?
  intro k
  rw [tweakWords_get fn words.length 0 words (by omega) k]
  simp

theorem tweakRows_get (fn : String → String) (n : Nat) :
    ∀ (i : Nat) (rows : List dictionary_type), i + n = rows.length → ∀ k : Nat,
      (tweakRows fn n i rows)[k]?
        = if i ≤ k then
            (rows[k]?).map (fun r => { r with words := r.words.map fun w => C_CString (fn w) })
          else rows[k]? := by
  induction n with
  | zero =>
    intro i rows h k
    have hi : i = rows.length := by omega
    by_cases hk : i ≤ k
    · have : rows[k]? = none := List.getElem?_eq_none (by omega)
      simp [tweakRows, hk, this]
    · simp [tweakRows, hk]
  | succ n ih =>
    intro i rows h k
    have hi : i < rows.length := by omega
    rw [tweakRows, List.getElem?_eq_getElem hi]
    simp only
    rw [ih (i + 1) _ (by simp; omega) k, List.getElem?_set]
    by_cases hk : i = k
    · subst hk
      simp [hi, dictionary_type.count, tweakWords_eq_map]
    · by_cases hk' : i + 1 ≤ k
      · have : i ≤ k := by omega
        simp [hk, hk', this]
      · have : ¬ i ≤ k := by omega
        simp [hk, hk', this]

theorem tweakRows_eq_map (fn : String → String) (rows : List dictionary_type) :
    tweakRows fn rows.length 0 rows
      = rows.map (fun r => { r with words := r.words.map fun w => C_CString (fn w) }) := by
  apply List.ext_getElem?
  intro k
  rw [tweakRows_get fn rows.length 0 rows (by omega) k]
  simp

theorem tweak_drows (dict : CWDict) (fn : String → String) :
    (dict.Tweak fn).drows
      = dict.drows.map (fun r => { r with words := r.words.map fun w => C_CString (fn w) }) := by
  simp only [CWDict.Tweak, CWDict.count, tweakRows_eq_map]

theorem allWords_tweak (dict : CWDict) (fn : String → String) :
    allWords (dict.Tweak fn) = (allWords dict).map (fun w => C_CString (fn w)) := by
  simp only [allWords, tweak_drows]
  induction dict.drows with
  | nil => rfl
  | cons r rows ih => simp [List.flatMap_cons, ih]

theorem C_CString_of_no_nul (s : String) (h : Char.ofNat 0 ∉ s.data) : C_CString s = s := by
  have : s.data.takeWhile (fun c => c != Char.ofNat 0) = s.data := by
    rw [List.takeWhile_eq_self_iff]
    intro c hc
    simp only [bne_iff_ne, ne_eq]
    intro hc0
    exact h (hc0 ▸ hc)
  simp only [C_CString, this]

theorem mem_allWords (dict : CWDict) (r : dictionary_type) (w : String)
    (hr : r ∈ dict.drows) (hw : w ∈ r.words) : w ∈ allWords dict := by
  simp only [allWords, List.mem_flatMap]
  exact ⟨r, hr, hw⟩

theorem tweak_drows_of_no_nul (dict : CWDict) (fn : String → String)
    (h : ∀ w ∈ allWords dict, Char.ofNat 0 ∉ (fn w).data) :
    (dict.Tweak fn).drows = dict.drows.map (fun r => { r with words := r.words.map fn }) := by
  rw [tweak_drows]
  apply List.map_congr_left
  intro r hr
  have : r.words.map (fun w => C_CString (fn w)) = r.words.map fn := by
    apply List.map_congr_left
    intro w hw
    exact C_CString_of_no_nul _ (h w (mem_allWords dict r w hr hw))
  rw [this]

theorem joinRows_eq_rows (joiner : String) (rows : List dictionary_type) :
    ∀ (i : Nat) (result : String),
      joinRows joiner ((i + rows.length : Nat) : Int) i rows result
        = result ++ separatedBy joiner (rows.map fun r => separatedBy joiner r.words) := by
  induction rows with
  | nil => intro i result; simp [joinRows, separatedBy]
  | cons r rows ih =>
    intro i result
    cases rows with
    | nil =>
      simp [joinRows, joinWords_row, separatedBy]
    | cons r' rows =>
      have h := ih (i + 1) (result ++ separatedBy joiner r.words ++ joiner)
      have e : i + 1 + (r' :: rows).length = i + (r :: r' :: rows).length := by
        simp only [List.length_cons]; omega
      rw [e] at h
      have c : (i : Int) < ((i + (r :: r' :: rows).length : Nat) : Int) - 1 := by
        simp only [List.length_cons]; push_cast; omega
      rw [joinRows]
      simp only [c, if_true, joinWords_row]
      rw [h]
      simp only [List.map_cons, separatedBy_cons_cons, String.append_assoc]

theorem join_eq_rows (dict : CWDict) (joiner : String) :
    dict.Join joiner
      = separatedBy joiner (dict.drows.map fun r => separatedBy joiner r.words) := by
  have h := joinRows_eq_rows joiner dict.drows 0 ""
  simp only [Nat.zero_add, String.empty_append] at h
  simpa [CWDict.Join, CWDict.count] using h

/-- C8, refuted as stated: with a function whose image holds a NUL, here the
constant `A`, NUL, `B`, the word `Tweak` leaves at row 0, position 0 is `A`, the
image up to its NUL, not the image, and `Join(",")` is `A,A,A`, not the join of
the images. -/
theorem tweak_cuts_image_at_nul :
    nulImage "a" = "A\x00B" ∧
      rowsOfThree.Tweak nulImage
        = { name := "", sorted := true, drows := [⟨["A"]⟩, ⟨["A", "A"]⟩] } ∧
      ((rowsOfThree.Tweak nulImage).drows[0]?).bind (fun r => r.words[0]?) = some "A" ∧
      ((rowsOfThree.Tweak nulImage).drows[0]?).bind (fun r => r.words[0]?)
        ≠ ((rowsOfThree.drows[0]?).bind (fun r => r.words[0]?)).map nulImage ∧
      (rowsOfThree.Tweak nulImage).Join "," = "A,A,A" ∧
      (rowsOfThree.Tweak nulImage).Join ","
        ≠ separatedBy "," ((allWords rowsOfThree).map nulImage) := by
  decide

/-- C8, amended: `Tweak(fn)` replaces each word `w` by the C string made of
`fn(w)`, which is `fn(w)` up to its first NUL, and keeps the row structure: the
number of rows and the number of words of each row are unchanged, the word at
row `i`, position `j` afterwards is that stored image of the word that was
there, and the name and the flag are untouched.  `Join(s)` afterwards is the
join of the stored images, row by row; with non-empty rows it is the stored
images of all words with one separator between consecutive ones.  When no image
of a word of the dictionary holds a NUL, the word afterwards is `fn` of the word
that was there and `Join(s)` is the join of the images. -/
theorem tweak_maps_words (dict : CWDict) (fn : String → String) :
    (dict.Tweak fn).drows.length = dict.drows.length ∧
      (∀ i : Nat, ((dict.Tweak fn).drows[i]?).map (fun r => r.words.length)
        = (dict.drows[i]?).map (fun r => r.words.length)) ∧
      (∀ i j : Nat, ((dict.Tweak fn).drows[i]?).bind (fun r => r.words[j]?)
        = ((dict.drows[i]?).bind (fun r => r.words[j]?)).map (fun w => C_CString (fn w))) ∧
      (dict.Tweak fn).name = dict.name ∧ (dict.Tweak fn).sorted = dict.sorted ∧
      (∀ joiner : String, (dict.Tweak fn).Join joiner
        = separatedBy joiner
            (dict.drows.map fun r =>
              separatedBy joiner (r.words.map fun w => C_CString (fn w)))) ∧
      (∀ joiner : String, (∀ r ∈ dict.drows, r.words ≠ []) →
        (dict.Tweak fn).Join joiner
          = separatedBy joiner ((allWords dict).map fun w => C_CString (fn w))) ∧
      ((∀ w ∈ allWords dict, Char.ofNat 0 ∉ (fn w).data) →
        (∀ i j : Nat, ((dict.Tweak fn).drows[i]?).bind (fun r => r.words[j]?)
          = ((dict.drows[i]?).bind (fun r => r.words[j]?)).map fn) ∧
        (∀ joiner : String, (dict.Tweak fn).Join joiner
          = separatedBy joiner
              (dict.drows.map fun r => separatedBy joiner (r.words.map fn))) ∧
        (∀ joiner : String, (∀ r ∈ dict.drows, r.words ≠ []) →
          (dict.Tweak fn).Join joiner = separatedBy joiner ((allWords dict).map fn))) := by
  have hne : (∀ r ∈ dict.drows, r.words ≠ []) → ∀ r ∈ (dict.Tweak fn).drows, r.words ≠ [] := by
    intro h r hr
    simp only [tweak_drows, List.mem_map] at hr
    obtain ⟨r', hr', rfl⟩ := hr
    simpa using h r' hr'
  refine ⟨by simp [tweak_drows], fun i => ?_, fun i j => ?_, rfl, rfl, fun joiner => ?_,
    fun joiner h => ?_, fun hnul => ⟨fun i j => ?_, fun joiner => ?_, fun joiner h => ?_⟩⟩
  · simp only [tweak_drows, List.getElem?_map]
    cases dict.drows[i]? <;> simp
  · simp only [tweak_drows, List.getElem?_map]
    cases dict.drows[i]? <;> simp [List.getElem?_map]
  · rw [join_eq_rows, tweak_drows, List.map_map]
    rfl
  · rw [join_eq_separatedBy _ _ (hne h), allWords_tweak]
  · simp only [tweak_drows_of_no_nul dict fn hnul, List.getElem?_map]
    cases dict.drows[i]? <;> simp [List.getElem?_map]
  · rw [join_eq_rows, tweak_drows_of_no_nul dict fn hnul, List.map_map]
    rfl
  · rw [join_eq_separatedBy _ _ (hne h), allWords_tweak]
    congr 1
    apply List.map_congr_left
    intro w hw
    exact C_CString_of_no_nul _ (hnul w hw)

/-- C8 amended, at a concrete dictionary: `Tweak` with the upper-casing
function, whose images of the three words hold no NUL. -/
theorem tweak_maps_words_witness :
    (rowsOfThree.Tweak strings_ToUpper).Join "," = "A,IS,OF" :=
  (((tweak_maps_words rowsOfThree strings_ToUpper).2.2.2.2.2.2.2 (by decide)).2.2
    "," (by decide)).trans (by decide)

/-! ### Counting and membership in the modelled library -/

theorem cwdict_length_eq (dict : CWDict) : cwdict_length dict = (allWords dict).length := by
  simp only [cwdict_length, allWords, dictionary_type.count]
  induction dict.drows with
  | nil => rfl
  | cons r rows ih => simp [List.flatMap_cons, ih]

/-- C9: `Length()`, `Size()` and `Count()` are synonyms.  `Count()` and `Size()`
are the same library call; with the modelled library all three return the total
number of word entries across all rows, duplicates counted, which is 0 for an
empty dictionary. -/
theorem length_size_count (lib : CLib) (cfg : LibConfig) (dict : CWDict) :
    dict.Count lib = dict.Size lib ∧
      dict.Length (specLib cfg) = dict.Size (specLib cfg) ∧
      dict.Size (specLib cfg) = dict.Count (specLib cfg) ∧
      dict.Length (specLib cfg) = (allWords dict).length ∧
      dict.Length (specLib cfg) = (dict.drows.map fun r => r.words.length).sum ∧
      (Open (specLib cfg)).Length (specLib cfg) = 0 ∧
      (allWords dict = [] → dict.Length (specLib cfg) = 0) := by
  have h : dict.Length (specLib cfg) = (allWords dict).length := cwdict_length_eq dict
  refine ⟨rfl, h, rfl, h, rfl, rfl, fun he => ?_⟩
  rw [h, he]
  rfl

theorem cwdict_include_iff (dict : CWDict) (word : String) :
    cwdict_include dict word = true ↔ ∃ r ∈ dict.drows, word ∈ r.words := by
  simp only [cwdict_include, List.any_eq_true, beq_iff_eq]
  constructor
  · rintro ⟨r, hr, w, hw, rfl⟩
    exact ⟨r, hr, hw⟩
  · rintro ⟨r, hr, hw⟩
    exact ⟨r, hr, word, hw, rfl⟩

theorem cwdict_exclude_eq (dict : CWDict) (word : String) :
    cwdict_exclude dict word = !cwdict_include dict word := by
  rw [Bool.eq_not_iff]
  intro h
  cases hi : cwdict_include dict word with
  | true =>
    obtain ⟨r, hr, hw⟩ := (cwdict_include_iff dict word).mp hi
    rw [hi] at h
    simp only [cwdict_exclude, List.all_eq_true, bne_iff_ne, ne_eq] at h
    exact h r hr word hw rfl
  | false =>
    rw [hi] at h
    have : ¬ cwdict_exclude dict word = true := by simp [h]
    apply this
    simp only [cwdict_exclude, List.all_eq_true, bne_iff_ne, ne_eq]
    intro r hr w hw hww
    subst hww
    have := (cwdict_include_iff dict w).mpr ⟨r, hr, hw⟩
    rw [hi] at this
    cases this

theorem normalize_of_isWord (delimiters word : String) (h : IsWord delimiters word) :
    normalize delimiters word = word := by
  have hf : word.data.filter (fun c => !delimiters.data.contains c) = word.data := by
    rw [List.filter_eq_self]
    intro c hc
    have := h.2 c hc
    simpa using this
  simp only [normalize, hf]

theorem mem_placeInRow (word w : String) (rows : List dictionary_type)
    (h : w = word ∨ ∃ r ∈ rows, w ∈ r.words) :
    ∃ r ∈ placeInRow word rows, w ∈ r.words := by
  induction rows with
  | nil =>
    rcases h with rfl | ⟨r, hr, _⟩
    · exact ⟨⟨[w]⟩, by simp [placeInRow], by simp⟩
    · cases hr
  | cons r rows ih =>
    rw [placeInRow]
    split_ifs with hlen
    · rcases h with rfl | ⟨r', hr', hw⟩
      · exact ⟨⟨r.words ++ [w]⟩, by simp, by simp⟩
      · rcases List.mem_cons.mp hr' with rfl | hr'
        · exact ⟨⟨r'.words ++ [word]⟩, by simp, by simp [hw]⟩
        · exact ⟨r', by simp [hr'], hw⟩
    · rcases h with rfl | ⟨r', hr', hw⟩
      · obtain ⟨r', hr', hw⟩ := ih (Or.inl rfl)
        exact ⟨r', by simp [hr'], hw⟩
      · rcases List.mem_cons.mp hr' with rfl | hr'
        · exact ⟨r', by simp, hw⟩
        · obtain ⟨r'', hr'', hw'⟩ := ih (Or.inr ⟨r', hr', hw⟩)
          exact ⟨r'', by simp [hr''], hw'⟩

theorem include_place_word (dict : CWDict) (word w : String)
    (h : w = word ∨ cwdict_include dict w = true) :
    cwdict_include (cwdict_place_word dict word) w = true := by
  rw [cwdict_include_iff]
  apply mem_placeInRow
  rcases h with rfl | h
  · exact Or.inl rfl
  · exact Or.inr ((cwdict_include_iff dict w).mp h)

theorem include_place_word_strict (delimiters : String) (dict : CWDict) (word w : String)
    (h : (w = normalize delimiters word ∧ w ≠ "") ∨ cwdict_include dict w = true) :
    cwdict_include (cwdict_place_word_strict delimiters dict word) w = true := by
  unfold cwdict_place_word_strict
  rcases h with ⟨rfl, hw⟩ | h
  · simp only [hw, if_false]
    exact include_place_word dict _ _ (Or.inl rfl)
  · simp only
    split_ifs
    · exact h
    · exact include_place_word dict _ w (Or.inr h)

theorem include_place_words (delimiters : String) (words : List String) (w : String)
    (hw : IsWord delimiters w) :
    ∀ dict : CWDict, (w ∈ words ∨ cwdict_include dict w = true) →
      cwdict_include
        (words.foldl (fun dict word => cwdict_place_word_strict delimiters dict word) dict) w
        = true := by
  have hn : w = normalize delimiters w ∧ w ≠ "" :=
    ⟨(normalize_of_isWord delimiters w hw).symm, hw.1⟩
  induction words with
  | nil =>
    intro dict h
    rcases h with h | h
    · cases h
    · exact h
  | cons x xs ih =>
    intro dict h
    rw [List.foldl_cons]
    apply ih
    rcases h with h | h
    · rcases List.mem_cons.mp h with rfl | h
      · exact Or.inr (include_place_word_strict delimiters dict w w (Or.inl hn))
      · exact Or.inl h
    · exact Or.inr (include_place_word_strict delimiters dict x w (Or.inr h))

/-- C10: with the modelled library, `Exclude(w)` is the negation of
`Include(w)` and `Include(w)` is true exactly when `w` is stored in some row.
What a strict insertion stores, the normalized token unless that is empty, is
included afterwards; in particular a Word (a non-empty sequence of non-delimiter
characters) placed with `PlaceWord`, `PlaceWords` or `PlaceSlice` is included
afterwards. -/
theorem include_exclude (cfg : LibConfig) (dict : CWDict) (word : String) :
    dict.Exclude (specLib cfg) word = !dict.Include (specLib cfg) word ∧
      (dict.Include (specLib cfg) word = true ↔ ∃ r ∈ dict.drows, word ∈ r.words) ∧
      (normalize cfg.CW_DELIMITERS word ≠ "" →
        (dict.PlaceWord (specLib cfg) word).Include (specLib cfg)
          (normalize cfg.CW_DELIMITERS word) = true) ∧
      (IsWord cfg.CW_DELIMITERS word →
        (dict.PlaceWord (specLib cfg) word).Include (specLib cfg) word = true ∧
        ∀ words : List String, word ∈ words →
          (dict.PlaceWords (specLib cfg) words).Include (specLib cfg) word = true ∧
          (dict.PlaceSlice (specLib cfg) words).Include (specLib cfg) word = true) := by
  refine ⟨cwdict_exclude_eq dict word, cwdict_include_iff dict word, fun hn => ?_,
    fun hw => ⟨?_, ?_⟩⟩
  · exact include_place_word_strict cfg.CW_DELIMITERS dict word _ (Or.inl ⟨rfl, hn⟩)
  · exact include_place_word_strict cfg.CW_DELIMITERS dict word word
      (Or.inl ⟨(normalize_of_isWord _ word hw).symm, hw.1⟩)
  · intro words hmem
    exact ⟨include_place_words cfg.CW_DELIMITERS words word hw dict (Or.inl hmem),
      include_place_words cfg.CW_DELIMITERS words word hw dict (Or.inl hmem)⟩

/-- C10 at the words of `TestChinwagIncludeExclude`. -/
theorem include_exclude_witness :
    ((Open (specLib smallConfig)).PlaceSlice (specLib smallConfig)
        ["this", "is", "a", "test", "of", "include"]).Include (specLib smallConfig) "test"
        = true ∧
      ((Open (specLib smallConfig)).PlaceSlice (specLib smallConfig)
        ["this", "is", "a", "test", "of", "include"]).Exclude (specLib smallConfig) "we"
        = true :=
  ⟨(((include_exclude smallConfig (Open (specLib smallConfig)) "test").2.2.2 (by decide)).2
      ["this", "is", "a", "test", "of", "include"] (by decide)).2,
    by decide⟩

/-! ### The sorted flag under `Tweak` -/

theorem sortedPair_eq :
    sortedPair = { name := "", sorted := true, drows := [⟨["a"]⟩, ⟨["is"]⟩] } := by
  decide

theorem tweak_sortedPair :
    sortedPair.Tweak lengthen
      = { name := "", sorted := true, drows := [⟨["aaa"]⟩, ⟨["is"]⟩] } := by
  decide

theorem tweak_sorted (dict : CWDict) (fn : String → String) :
    (dict.Tweak fn).IsSorted = dict.IsSorted := rfl

theorem rowsAscending_tweak (dict : CWDict) (fn : String → String)
    (hlen : ∀ w ∈ allWords dict, (C_CString (fn w)).length = w.length)
    (h : RowsAscending dict) : RowsAscending (dict.Tweak fn) := by
  unfold RowsAscending at h ⊢
  rw [tweak_drows, List.pairwise_map]
  refine h.imp_of_mem ?_
  intro r s hr hs hrs a ha b hb
  simp only [List.mem_map] at ha hb
  obtain ⟨a', ha', rfl⟩ := ha
  obtain ⟨b', hb', rfl⟩ := hb
  rw [hlen a' (mem_allWords dict r a' hr ha'), hlen b' (mem_allWords dict s b' hs hb')]
  exact hrs a' ha' b' hb'

theorem wordsInOrder_tweak (le : String → String → Prop) (dict : CWDict)
    (fn : String → String)
    (hmono : ∀ a ∈ allWords dict, ∀ b ∈ allWords dict,
      le a b → le (C_CString (fn a)) (C_CString (fn b)))
    (h : WordsInOrder le dict) : WordsInOrder le (dict.Tweak fn) := by
  intro r hr
  rw [tweak_drows, List.mem_map] at hr
  obtain ⟨r', hr', rfl⟩ := hr
  simp only
  rw [List.pairwise_map]
  refine (h r' hr').imp_of_mem ?_
  intro a b ha hb hab
  exact hmono a (mem_allWords dict r' a hr' ha) b (mem_allWords dict r' b hr' hb) hab

/-- C11, refuted as stated: the dictionary with the rows `[a]`, `[is]` and the
flag set, as `Sort()` leaves it, has the flag set exactly when it is in order;
after `Tweak` with a function that lengthens `a` its rows are `[aaa]`, `[is]`,
no longer in ascending length order, and `IsSorted()` is still true. -/
theorem tweak_breaks_sorted_invariant :
    sortedPair.String_ = "[[a], [is]]" ∧ sortedPair.IsSorted = true ∧
      SortedExactly (fun a b => a ≤ b) sortedPair ∧
      (sortedPair.Tweak lengthen).String_ = "[[aaa], [is]]" ∧
      (sortedPair.Tweak lengthen).IsSorted = true ∧
      ¬ RowsAscending (sortedPair.Tweak lengthen) ∧
      ¬ SortedOnlyIf (fun a b => a ≤ b) (sortedPair.Tweak lengthen) := by
  have hbroken : ¬ RowsAscending (sortedPair.Tweak lengthen) := by
    rw [tweak_sortedPair]
    simp [RowsAscending]
    decide
  refine ⟨by decide, by decide, ?_, by decide, by decide, hbroken, ?_⟩
  · rw [sortedPair_eq]
    simp only [SortedExactly, CWDict.IsSorted, true_iff]
    constructor
    · intro r hr
      simp only [List.mem_cons, List.mem_singleton, List.not_mem_nil, or_false] at hr
      rcases hr with rfl | rfl <;> simp
    · simp [RowsAscending]
      decide
  · intro h
    exact hbroken (h (by decide)).2

/-- C11, amended: `Tweak` does not write the flag, so `IsSorted()` afterwards is
what it was before, whatever the function does to the words.  When the function
keeps the length of every word of the dictionary and the order `le` of its
words, both read on the word as stored (the image up to its first NUL, the image
itself when it holds none), a dictionary whose flag is set only if it is in
order (in particular one whose flag is set exactly when it is in order) still
has that property after `Tweak`. -/
theorem tweak_keeps_flag (le : String → String → Prop) (dict : CWDict) (fn : String → String)
    (hlen : ∀ w ∈ allWords dict, (C_CString (fn w)).length = w.length)
    (hmono : ∀ a ∈ allWords dict, ∀ b ∈ allWords dict,
      le a b → le (C_CString (fn a)) (C_CString (fn b))) :
    (∀ g : String → String, (dict.Tweak g).IsSorted = dict.IsSorted) ∧
      (SortedOnlyIf le dict → SortedOnlyIf le (dict.Tweak fn)) ∧
      (SortedExactly le dict → SortedOnlyIf le (dict.Tweak fn)) := by
  have keep : SortedOnlyIf le dict → SortedOnlyIf le (dict.Tweak fn) := by
    intro h hs
    rw [tweak_sorted] at hs
    exact ⟨wordsInOrder_tweak le dict fn hmono (h hs).1,
      rowsAscending_tweak dict fn hlen (h hs).2⟩
  exact ⟨fun g => tweak_sorted dict g, keep, fun h => keep h.mp⟩

/-- C11 amended, at a concrete dictionary: upper-casing keeps the lengths of the
two words, and the sorted pair stays in order by length. -/
theorem tweak_keeps_flag_witness :
    SortedOnlyIf (fun a b => a.length ≤ b.length) (sortedPair.Tweak strings_ToUpper) ∧
      (sortedPair.Tweak strings_ToUpper).String_ = "[[A], [IS]]" :=
  have hlen : ∀ w ∈ allWords sortedPair,
      (C_CString (strings_ToUpper w)).length = w.length := by decide
  ⟨(tweak_keeps_flag (fun a b => a.length ≤ b.length) sortedPair strings_ToUpper hlen
      (fun a ha b hb h => by
        show (C_CString (strings_ToUpper a)).length ≤ (C_CString (strings_ToUpper b)).length
        rw [hlen a ha, hlen b hb]
        exact h)).2.1
      (by
        intro _
        rw [sortedPair_eq]
        constructor
        · intro r hr
          simp only [List.mem_cons, List.mem_singleton, List.not_mem_nil, or_false] at hr
          rcases hr with rfl | rfl <;> simp
        · simp [RowsAscending]
          decide),
    by decide⟩

/-! ### `Equal` and `Inequal` -/

/-- C12, the code at the failing input: for every library `Equal` and `Inequal`
hand the receiver to the library as both arguments, so their result does not
depend on the argument `against`.  With the empty dictionary as receiver and a
dictionary of four words as argument, the library's comparison of the two says
they are not equal, yet `Equal` returns true and `Inequal` returns false. -/
theorem equal_ignores_argument (lib : CLib) (dict against other : CWDict) :
    dict.Equal lib against = lib.cwdict_equal dict dict ∧
      dict.Inequal lib against = lib.cwdict_inequal dict dict ∧
      dict.Equal lib against = dict.Equal lib other ∧
      dict.Inequal lib against = dict.Inequal lib other ∧
      (specLib smallConfig).cwdict_equal (Open (specLib smallConfig)) fourWords = false ∧
      (Open (specLib smallConfig)).Equal (specLib smallConfig) fourWords = true ∧
      (specLib smallConfig).cwdict_inequal (Open (specLib smallConfig)) fourWords = true ∧
      (Open (specLib smallConfig)).Inequal (specLib smallConfig) fourWords = false :=
  ⟨rfl, rfl, rfl, rfl, by decide, by decide, by decide, by decide⟩

/-! ### Bulk insertion -/

theorem foldl_eq_insertEach (insert : CWDict → String → CWDict) (words : List String) :
    ∀ dict : CWDict, words.foldl insert dict = insertEach insert dict words := by
  induction words with
  | nil => intro dict; rfl
  | cons w words ih =>
    intro dict
    rw [List.foldl_cons, insertEach]
    exact ih (insert dict w)

/-- C13: for every library, dictionary and list of words, `AppendWords` and
`AppendSlice` yield the dictionary that calling `AppendWord` for each word in
order yields, every call a loose insert (`cwdict_place_word`), and `PlaceWords`
and `PlaceSlice` yield the dictionary that calling `PlaceWord` for each word in
order yields, every call a strict insert (`cwdict_place_word_strict`); with no
words the dictionary is unchanged. -/
theorem bulk_insert_is_repeated_single (lib : CLib) (dict : CWDict) (words : List String) :
    dict.AppendWords lib words = insertEach (fun d w => d.AppendWord lib w) dict words ∧
      dict.AppendSlice lib words = insertEach (fun d w => d.AppendWord lib w) dict words ∧
      dict.PlaceWords lib words = insertEach (fun d w => d.PlaceWord lib w) dict words ∧
      dict.PlaceSlice lib words = insertEach (fun d w => d.PlaceWord lib w) dict words ∧
      (∀ w : String, dict.AppendWord lib w = lib.cwdict_place_word dict w ∧
        dict.PlaceWord lib w = lib.cwdict_place_word_strict dict w) ∧
      dict.AppendWords lib [] = dict ∧ dict.AppendSlice lib [] = dict ∧
      dict.PlaceWords lib [] = dict ∧ dict.PlaceSlice lib [] = dict :=
  ⟨foldl_eq_insertEach _ words dict, foldl_eq_insertEach _ words dict,
    foldl_eq_insertEach _ words dict, foldl_eq_insertEach _ words dict,
    fun _ => ⟨rfl, rfl⟩, rfl, rfl, rfl, rfl⟩

end Chinwag
